import Mathlib

/-!
Verification of the Fenz bounded FIFO queue core (`src/fenz/queue.hpp`,
`src/fenz/option.hpp`) against its natural-language specification.

The embedding is shallow:

* `fenz::Option<T>` is modelled at two levels.
  - For the value-lifecycle claims we use `Fenz.Slot T`: the `hasValue_`
    flag plus the raw union storage.  `store = some v` means the storage
    holds a live `T` with value `v`; `store = none` means the storage holds
    no live object (uninitialized, or destructed by an explicit
    `value_.~T()` call).  Copying out of dead storage yields no live value,
    which is exactly the observable behaviour for a `T` whose destructor
    releases the value.  Destructor invocations of the held `T` are counted
    explicitly so the "exactly one destruction" part of the spec can be
    stated.
  - Inside the queue, where slots are never aliased and only their logical
    contents matter, an `Option<T>` slot is modelled by a plain Lean
    `Option T` (absent / present-with-value).

* `fenz::Queue<T, Capacity>` becomes `Fenz.Queue T`: the backing array
  `Option<T> data[Capacity]` is a `List (Option T)` of length `Capacity`,
  and `front`, `rear`, `count` are `Nat`.  The C++ members are
  `unsigned int`, but every reachable value stays in `[0, Capacity]` and
  each increment happens only below that bound, so `Nat` arithmetic with
  explicit `% Capacity` coincides with the 32-bit unsigned arithmetic of
  the source.  `Capacity` is passed to each operation, mirroring the
  template parameter.
-/

namespace Fenz

/-- Model of `fenz::Option<T>`'s runtime representation: the `hasValue_`
flag together with the union storage.  `store = none` models storage that
holds no live `T` object. -/
structure Slot (T : Type) where
  hasValue_ : Bool
  store : Option T
deriving Repr, DecidableEq

namespace Slot

/-- `Option() : hasValue_(false)` — absent slot, storage uninitialized. -/
def mkEmpty (T : Type) : Slot T := ⟨false, none⟩

/-- `Option(T value) : value_(value), hasValue_(true)`. -/
def mkSome (v : T) : Slot T := ⟨true, some v⟩

/-- `hasValue()` — returns the flag. -/
def hasValue (s : Slot T) : Bool := s.hasValue_

/-- The representation invariant stated by the spec: the storage holds a
live `T` iff the presence flag is true. -/
def WF (s : Slot T) : Prop := s.hasValue_ = s.store.isSome

/-- `operator=(const Option &other)` for *distinct* objects `this ≠ &other`.
Faithful to the source: first `if (hasValue()) value_.~T();` (the flag is
not touched by the `T` destructor), then if `other.hasValue()` the flag is
set and `other`'s storage is copied, else the flag is cleared.  Returns the
updated slot together with the number of destructor calls on the held `T`. -/
def assign (t s : Slot T) : Slot T × Nat :=
  let t1 : Slot T := if t.hasValue_ then { t with store := none } else t
  let d : Nat := if t.hasValue_ then 1 else 0
  if s.hasValue_ then (⟨true, s.store⟩, d) else (⟨false, t1.store⟩, d)

/-- `operator=` when `other` *is* `this` (self-assignment).  Tracing the
same source text with the aliasing made explicit: after
`value_.~T()` the source — being the same object — already has dead
storage, so the subsequent `value_ = other.value_` copies from destructed
storage. -/
def assignSelf (t : Slot T) : Slot T × Nat :=
  let t1 : Slot T := if t.hasValue_ then { t with store := none } else t
  let d : Nat := if t.hasValue_ then 1 else 0
  if t1.hasValue_ then (⟨true, t1.store⟩, d) else (⟨false, t1.store⟩, d)

/-- `valueOrAssign(const T &ifNone)`: `if (!hasValue()) *this = ifNone;`
(the argument converts to a present temporary `Option`, assigned with the
non-aliased `operator=`), then `return value_;` — modelled as returning the
storage contents alongside the updated slot. -/
def valueOrAssign (t : Slot T) (ifNone : T) : Slot T × Option T :=
  let t1 : Slot T := if !t.hasValue_ then (assign t (mkSome ifNone)).1 else t
  (t1, t1.store)

/-- `valueOr(const T &ifNone)`: the held value if present, else the
fallback; no mutation. -/
def valueOr (t : Slot T) (ifNone : T) : T :=
  if t.hasValue_ then t.store.getD ifNone else ifNone

end Slot

/-- Model of `fenz::Queue<T, Capacity>`.  `data` has length `Capacity`;
queue values live at the `%`-arithmetic positions the source computes. -/
structure Queue (T : Type) where
  data : List (Option T)
  front : Nat
  rear : Nat
  count : Nat
deriving Repr, DecidableEq

namespace Queue

/-- `Queue() : front(0), rear(0), count(0)` with all `Capacity` slots
default-constructed absent. -/
def mk0 (T : Type) (Capacity : Nat) : Queue T :=
  ⟨List.replicate Capacity none, 0, 0, 0⟩

/-- `size()` — returns `count`. -/
def size (q : Queue T) : Nat := q.count

/-- `capacity()` — returns the template constant. -/
def capacity (C : Nat) (_q : Queue T) : Nat := C

/-- `isFull()` — `count == Capacity`. -/
def isFull (C : Nat) (q : Queue T) : Bool := q.count == C

/-- `isEmpty()` — `count == 0`. -/
def isEmpty (q : Queue T) : Bool := q.count == 0

/-- `enqueue(const T &item)`: reject when full, otherwise
`data[rear] = item; rear = (rear + 1) % Capacity; count++;`. -/
def enqueue (C : Nat) (q : Queue T) (item : T) : Queue T × Bool :=
  if q.isFull C then (q, false)
  else ({ q with data := q.data.set q.rear (some item),
                 rear := (q.rear + 1) % C,
                 count := q.count + 1 }, true)

/-- `forceEnqueue(const T &item)`: when full, advance `front` and decrement
`count` (the slot itself is not touched), then run `enqueue`. -/
def forceEnqueue (C : Nat) (q : Queue T) (item : T) : Queue T :=
  let q1 := if q.isFull C then
      { q with front := (q.front + 1) % C, count := q.count - 1 }
    else q
  (enqueue C q1 item).1

/-- `dequeue()`: absent result on an empty queue; otherwise copy the
`Option` at `front` (the backing slot is *not* cleared by the source),
advance `front`, decrement `count`, and return the copy. -/
def dequeue (C : Nat) (q : Queue T) : Queue T × Option T :=
  if q.isEmpty then (q, none)
  else ({ q with front := (q.front + 1) % C, count := q.count - 1 },
        q.data.getD q.front none)

/-- Enqueue a list of values left to right (no interleaved dequeues),
discarding the success flags. -/
def enqueueList (C : Nat) (q : Queue T) (vs : List T) : Queue T :=
  vs.foldl (fun s v => (enqueue C s v).1) q

/-- Dequeue `n` times, collecting the returned `Option` results in order. -/
def dequeueN (C : Nat) (q : Queue T) : Nat → Queue T × List (Option T)
  | 0 => (q, [])
  | n + 1 =>
    let r := dequeue C q
    let rest := dequeueN C r.1 n
    (rest.1, r.2 :: rest.2)

/-- One client-visible operation on the queue. -/
inductive Op (T : Type) where
  | enq (v : T)
  | fenq (v : T)
  | deq
deriving Repr, DecidableEq

/-- Apply one operation, keeping only the queue state. -/
def step (C : Nat) (q : Queue T) : Op T → Queue T
  | .enq v => (enqueue C q v).1
  | .fenq v => forceEnqueue C q v
  | .deq => (dequeue C q).1

/-- Run a sequence of operations from the freshly constructed queue. -/
def run (T : Type) (C : Nat) (ops : List (Op T)) : Queue T :=
  ops.foldl (step C) (mk0 T C)

/-- Representation invariant of reachable queue states: the backing array
really has `Capacity` slots, the indices are reduced, `count` is bounded,
and `rear` sits `count` places after `front` in the circular index space. -/
def Inv (C : Nat) (q : Queue T) : Prop :=
  q.data.length = C ∧ q.front < C ∧ q.count ≤ C ∧
    q.rear = (q.front + q.count) % C

/-- The live window: the `count` slot contents starting at `front` walking
forward mod `Capacity`. -/
def window (C : Nat) (q : Queue T) : List (Option T) :=
  (List.range q.count).map (fun k => q.data.getD ((q.front + k) % C) none)

/-- Every slot of the live window is present. -/
def PresInv (C : Nat) (q : Queue T) : Prop :=
  ∀ x ∈ window C q, x.isSome = true

end Queue

/-! ### Helper lemmas about list indexing and modular indices -/

theorem getD_set_self (l : List α) (i : Nat) (a d : α) (h : i < l.length) :
    (l.set i a).getD i d = a := by
  rw [List.getD, List.get?_eq_getElem?, List.getElem?_set_self (by simpa using h)]
  rfl

theorem getD_set_ne (l : List α) (i j : Nat) (a d : α) (h : i ≠ j) :
    (l.set i a).getD j d = l.getD j d := by
  rw [List.getD, List.getD, List.get?_eq_getElem?, List.get?_eq_getElem?,
    List.getElem?_set_ne h]

theorem add_mod_ne (f : Nat) {C k c : Nat} (hk : k < C) (hc : c < C)
    (hne : k ≠ c) : (f + k) % C ≠ (f + c) % C := by
  intro h
  exact hne ((Nat.ModEq.add_left_cancel' f h).eq_of_lt_of_lt hk hc)

namespace Queue

/-! ### Branch shapes of the three mutators -/

theorem enqueue_full {C : Nat} {q : Queue T} (item : T) (h : q.count = C) :
    enqueue C q item = (q, false) := by
  simp [enqueue, isFull, h]

theorem enqueue_notFull {C : Nat} {q : Queue T} (item : T) (h : q.count ≠ C) :
    enqueue C q item =
      ({ q with data := q.data.set q.rear (some item),
                rear := (q.rear + 1) % C,
                count := q.count + 1 }, true) := by
  simp [enqueue, isFull, h]

theorem dequeue_empty {C : Nat} {q : Queue T} (h : q.count = 0) :
    dequeue C q = (q, none) := by
  simp [dequeue, isEmpty, h]

theorem dequeue_nonEmpty {C : Nat} {q : Queue T} (h : q.count ≠ 0) :
    dequeue C q =
      ({ q with front := (q.front + 1) % C, count := q.count - 1 },
        q.data.getD q.front none) := by
  simp [dequeue, isEmpty, h]

theorem dequeue_data (C : Nat) (q : Queue T) : (dequeue C q).1.data = q.data := by
  unfold dequeue
  split <;> rfl

/-- When the queue is full, the eviction step of `forceEnqueue` produces
exactly the state `dequeue` would leave behind, after which `enqueue` runs. -/
theorem forceEnqueue_full {C : Nat} {q : Queue T} (item : T) (h1 : 1 ≤ C)
    (h : q.count = C) :
    forceEnqueue C q item = (enqueue C (dequeue C q).1 item).1 := by
  have h0 : q.count ≠ 0 := by omega
  rw [forceEnqueue, dequeue_nonEmpty h0]
  simp [isFull, h]

theorem forceEnqueue_notFull {C : Nat} {q : Queue T} (item : T)
    (h : q.count ≠ C) : forceEnqueue C q item = (enqueue C q item).1 := by
  simp [forceEnqueue, isFull, h]

/-! ### Preservation of the representation invariant -/

theorem inv_mk0 (T : Type) {C : Nat} (h1 : 1 ≤ C) : Inv C (mk0 T C) := by
  dsimp [Inv, mk0]
  refine ⟨List.length_replicate _ _, by omega, by omega, by simp⟩

theorem inv_enqueue {C : Nat} {q : Queue T} (item : T) (h1 : 1 ≤ C)
    (hq : Inv C q) : Inv C (enqueue C q item).1 := by
  obtain ⟨hl, hf, hc, hr⟩ := hq
  by_cases h : q.count = C
  · rw [enqueue_full item h]; exact ⟨hl, hf, hc, hr⟩
  · rw [enqueue_notFull item h]
    dsimp [Inv]
    refine ⟨by simpa using hl, hf, by omega, ?_⟩
    rw [hr, Nat.mod_add_mod, Nat.add_assoc]

theorem inv_dequeue {C : Nat} {q : Queue T} (h1 : 1 ≤ C)
    (hq : Inv C q) : Inv C (dequeue C q).1 := by
  obtain ⟨hl, hf, hc, hr⟩ := hq
  by_cases h : q.count = 0
  · rw [dequeue_empty h]; exact ⟨hl, hf, hc, hr⟩
  · rw [dequeue_nonEmpty h]
    dsimp [Inv]
    refine ⟨hl, Nat.mod_lt _ (by omega), by omega, ?_⟩
    rw [hr, Nat.mod_add_mod]
    congr 1
    omega

theorem inv_forceEnqueue {C : Nat} {q : Queue T} (item : T) (h1 : 1 ≤ C)
    (hq : Inv C q) : Inv C (forceEnqueue C q item) := by
  by_cases h : q.count = C
  · rw [forceEnqueue_full item h1 h]
    exact inv_enqueue item h1 (inv_dequeue h1 hq)
  · rw [forceEnqueue_notFull item h]
    exact inv_enqueue item h1 hq

theorem inv_step {C : Nat} {q : Queue T} (h1 : 1 ≤ C) (hq : Inv C q) :
    ∀ op : Op T, Inv C (step C q op)
  | .enq v => inv_enqueue v h1 hq
  | .fenq v => inv_forceEnqueue v h1 hq
  | .deq => inv_dequeue h1 hq

theorem inv_foldl {C : Nat} (h1 : 1 ≤ C) :
    ∀ (ops : List (Op T)) (q : Queue T), Inv C q →
      Inv C (ops.foldl (step C) q)
  | [], _, hq => hq
  | op :: ops, q, hq => by
    rw [List.foldl_cons]
    exact inv_foldl h1 ops _ (inv_step h1 hq op)

theorem inv_run (T : Type) {C : Nat} (h1 : 1 ≤ C) (ops : List (Op T)) :
    Inv C (run T C ops) :=
  inv_foldl h1 ops _ (inv_mk0 T h1)

/-! ### The live window under each operation -/

theorem window_mk0 (T : Type) (C : Nat) : window C (mk0 T C) = [] := by
  simp [window, mk0]

theorem window_length (C : Nat) (q : Queue T) :
    (window C q).length = q.count := by
  simp [window]

theorem count_enqueue_notFull {C : Nat} {q : Queue T} (item : T)
    (h : q.count ≠ C) : (enqueue C q item).1.count = q.count + 1 := by
  rw [enqueue_notFull item h]

theorem count_dequeue_nonEmpty {C : Nat} {q : Queue T} (h : q.count ≠ 0) :
    (dequeue C q).1.count = q.count - 1 := by
  rw [dequeue_nonEmpty h]

theorem window_enqueue {C : Nat} {q : Queue T} (item : T) (h1 : 1 ≤ C)
    (hq : Inv C q) (h : q.count ≠ C) :
    window C (enqueue C q item).1 = window C q ++ [some item] := by
  obtain ⟨hl, hf, hc, hr⟩ := hq
  have hcC : q.count < C := lt_of_le_of_ne hc h
  rw [enqueue_notFull item h]
  dsimp [window]
  rw [List.range_succ, List.map_append, List.map_cons, List.map_nil]
  congr 1
  · refine List.map_congr_left ?_
    intro k hk
    have hk' : k < q.count := List.mem_range.mp hk
    refine getD_set_ne _ _ _ _ _ ?_
    rw [hr]
    exact add_mod_ne q.front hcC (lt_trans hk' hcC) (by omega)
  · rw [hr]
    have hlt : (q.front + q.count) % C < q.data.length := by
      rw [hl]; exact Nat.mod_lt _ (by omega)
    rw [getD_set_self _ _ _ _ hlt]

theorem window_dequeue {C : Nat} {q : Queue T} (h1 : 1 ≤ C)
    (hq : Inv C q) (h : q.count ≠ 0) :
    window C q = (dequeue C q).2 :: window C (dequeue C q).1 := by
  obtain ⟨hl, hf, hc, hr⟩ := hq
  obtain ⟨m, hm⟩ : ∃ m, q.count = m + 1 := ⟨q.count - 1, by omega⟩
  rw [dequeue_nonEmpty h]
  dsimp [window]
  rw [hm, List.range_succ_eq_map, List.map_cons, List.map_map]
  congr 1
  · rw [Nat.add_zero, Nat.mod_eq_of_lt hf]
  · refine List.map_congr_left ?_
    intro k _
    simp only [Function.comp, Nat.succ_eq_add_one]
    rw [Nat.mod_add_mod]
    exact congrArg (fun i => q.data.getD (i % C) none) (by omega)

/-! ### Batch operations -/

theorem enqueueList_window {C : Nat} (h1 : 1 ≤ C) :
    ∀ (vs : List T) (q : Queue T), Inv C q → q.count + vs.length ≤ C →
      Inv C (enqueueList C q vs) ∧
      (enqueueList C q vs).count = q.count + vs.length ∧
      window C (enqueueList C q vs) = window C q ++ vs.map some
  | [], q, hq, _ => by simp [enqueueList, hq]
  | v :: vs, q, hq, hlen => by
    have hlv : (v :: vs).length = vs.length + 1 := rfl
    have h : q.count ≠ C := by rw [hlv] at hlen; omega
    have hq1 : Inv C (enqueue C q v).1 := inv_enqueue v h1 hq
    have hc1 : (enqueue C q v).1.count = q.count + 1 :=
      count_enqueue_notFull v h
    have hstep : enqueueList C q (v :: vs) =
        enqueueList C (enqueue C q v).1 vs := rfl
    obtain ⟨hI, hcnt, hw⟩ := enqueueList_window h1 vs (enqueue C q v).1 hq1
      (by rw [hc1]; rw [hlv] at hlen; omega)
    refine ⟨hstep ▸ hI, ?_, ?_⟩
    · rw [hstep, hcnt, hc1, hlv]; omega
    · rw [hstep, hw, window_enqueue v h1 hq h, List.map_cons,
        List.append_assoc, List.singleton_append]

/-! ### Presence of every live-window slot, over all reachable states -/

theorem presInv_mk0 (T : Type) (C : Nat) : PresInv C (mk0 T C) := by
  intro x hx
  rw [window_mk0] at hx
  exact absurd hx (List.not_mem_nil x)

theorem presInv_enqueue {C : Nat} {q : Queue T} (item : T) (h1 : 1 ≤ C)
    (hq : Inv C q) (hp : PresInv C q) : PresInv C (enqueue C q item).1 := by
  by_cases h : q.count = C
  · rw [enqueue_full item h]; exact hp
  · intro x hx
    rw [window_enqueue item h1 hq h] at hx
    rcases List.mem_append.mp hx with h' | h'
    · exact hp x h'
    · rw [List.mem_singleton.mp h']; rfl

theorem presInv_dequeue {C : Nat} {q : Queue T} (h1 : 1 ≤ C)
    (hq : Inv C q) (hp : PresInv C q) : PresInv C (dequeue C q).1 := by
  by_cases h : q.count = 0
  · rw [dequeue_empty h]; exact hp
  · intro x hx
    refine hp x ?_
    rw [window_dequeue h1 hq h]
    exact List.mem_cons_of_mem _ hx

theorem presInv_forceEnqueue {C : Nat} {q : Queue T} (item : T) (h1 : 1 ≤ C)
    (hq : Inv C q) (hp : PresInv C q) : PresInv C (forceEnqueue C q item) := by
  by_cases h : q.count = C
  · rw [forceEnqueue_full item h1 h]
    exact presInv_enqueue item h1 (inv_dequeue h1 hq) (presInv_dequeue h1 hq hp)
  · rw [forceEnqueue_notFull item h]
    exact presInv_enqueue item h1 hq hp

theorem presInv_step {C : Nat} {q : Queue T} (h1 : 1 ≤ C) (hq : Inv C q)
    (hp : PresInv C q) : ∀ op : Op T, PresInv C (step C q op)
  | .enq v => presInv_enqueue v h1 hq hp
  | .fenq v => presInv_forceEnqueue v h1 hq hp
  | .deq => presInv_dequeue h1 hq hp

theorem invPres_foldl {C : Nat} (h1 : 1 ≤ C) :
    ∀ (ops : List (Op T)) (q : Queue T), Inv C q → PresInv C q →
      Inv C (ops.foldl (step C) q) ∧ PresInv C (ops.foldl (step C) q)
  | [], _, hq, hp => ⟨hq, hp⟩
  | op :: ops, q, hq, hp => by
    rw [List.foldl_cons]
    exact invPres_foldl h1 ops _ (inv_step h1 hq op) (presInv_step h1 hq hp op)

theorem presInv_run (T : Type) {C : Nat} (h1 : 1 ≤ C) (ops : List (Op T)) :
    PresInv C (run T C ops) :=
  (invPres_foldl h1 ops _ (inv_mk0 T h1) (presInv_mk0 T C)).2

theorem dequeueN_window {C : Nat} (h1 : 1 ≤ C) :
    ∀ (n : Nat) (q : Queue T), Inv C q → q.count = n →
      (dequeueN C q n).2 = window C q
  | 0, q, _, h0 => by
    dsimp [dequeueN, window]
    rw [h0]
    rfl
  | m + 1, q, hq, hc => by
    have h : q.count ≠ 0 := by omega
    have hq1 : Inv C (dequeue C q).1 := inv_dequeue h1 hq
    have hc1 : (dequeue C q).1.count = m := by
      rw [count_dequeue_nonEmpty h]; omega
    dsimp only [dequeueN]
    rw [dequeueN_window h1 m (dequeue C q).1 hq1 hc1]
    exact (window_dequeue h1 hq h).symm

end Queue

/-! ### The claims -/

/-- C1. FIFO order: for every queue with `Capacity ≥ 1` and every `N ≤
Capacity`, enqueuing values `v1..vN` into a freshly constructed queue with
no interleaved dequeues and then calling `dequeue()` `N` times yields
present results `v1..vN` in that order. -/
theorem fenz_c1_fifo_order (T : Type) (C : Nat) (h1 : 1 ≤ C) (vs : List T)
    (hlen : vs.length ≤ C) :
    (Queue.dequeueN C (Queue.enqueueList C (Queue.mk0 T C) vs) vs.length).2
      = vs.map some := by
  obtain ⟨hI, hcnt, hw⟩ := Queue.enqueueList_window h1 vs (Queue.mk0 T C)
    (Queue.inv_mk0 T h1) (by dsimp [Queue.mk0]; omega)
  rw [Queue.dequeueN_window h1 vs.length _ hI
    (by rw [hcnt]; dsimp [Queue.mk0]; omega)]
  rw [hw, Queue.window_mk0, List.nil_append]

/-- Witness for C1 at `Capacity = 3`, `vs = [10, 20, 30]`. -/
theorem fenz_c1_fifo_order_witness :
    1 ≤ 3 ∧ ([10, 20, 30] : List Nat).length ≤ 3 ∧
    (Queue.dequeueN 3
        (Queue.enqueueList 3 (Queue.mk0 Nat 3) [10, 20, 30])
        ([10, 20, 30] : List Nat).length).2
      = [some 10, some 20, some 30] :=
  ⟨by decide, by decide,
    fenz_c1_fifo_order Nat 3 (by decide) [10, 20, 30] (by decide)⟩

/-- C3. Enqueue rejection is atomic: when `count == Capacity`, `enqueue`
returns `false` and leaves `front`, `rear`, `count` and every backing slot
unchanged (the state is returned as is). -/
theorem fenz_c3_enqueue_full_atomic (T : Type) (C : Nat) (q : Queue T)
    (item : T) (h : q.count = C) :
    Queue.enqueue C q item = (q, false) :=
  Queue.enqueue_full item h

/-- Witness for C3 on a concrete full queue of capacity 1. -/
theorem fenz_c3_enqueue_full_atomic_witness :
    (⟨[some 3], 0, 0, 1⟩ : Queue Nat).count = 1 ∧
    Queue.enqueue 1 (⟨[some 3], 0, 0, 1⟩ : Queue Nat) 7
      = (⟨[some 3], 0, 0, 1⟩, false) :=
  ⟨rfl, fenz_c3_enqueue_full_atomic Nat 1 ⟨[some 3], 0, 0, 1⟩ 7 rfl⟩

/-- C4. Dequeue on empty is atomic: when `count == 0`, `dequeue` returns an
absent `Option` and leaves `front`, `rear`, `count` and every backing slot
unchanged. -/
theorem fenz_c4_dequeue_empty_atomic (T : Type) (C : Nat) (q : Queue T)
    (h : q.count = 0) :
    Queue.dequeue C q = (q, none) :=
  Queue.dequeue_empty h

/-- Witness for C4 on a concrete empty queue whose slots retain stale
values. -/
theorem fenz_c4_dequeue_empty_atomic_witness :
    (⟨[some 3, none], 1, 1, 0⟩ : Queue Nat).count = 0 ∧
    Queue.dequeue 2 (⟨[some 3, none], 1, 1, 0⟩ : Queue Nat)
      = (⟨[some 3, none], 1, 1, 0⟩, none) :=
  ⟨rfl, fenz_c4_dequeue_empty_atomic Nat 2 ⟨[some 3, none], 1, 1, 0⟩ rfl⟩

/-- C6. Reachable-state bounds: for every `Capacity ≥ 1` and every sequence
of `enqueue`/`forceEnqueue`/`dequeue` operations from a freshly constructed
queue, `size() ≤ capacity()`, `front` and `rear` lie in `[0, Capacity)`,
and `rear = (front + count) % Capacity`. -/
theorem fenz_c6_reachable_bounds (T : Type) (C : Nat) (h1 : 1 ≤ C)
    (ops : List (Queue.Op T)) :
    (Queue.run T C ops).size ≤ Queue.capacity C (Queue.run T C ops) ∧
    (Queue.run T C ops).front < C ∧
    (Queue.run T C ops).rear < C ∧
    (Queue.run T C ops).rear
      = ((Queue.run T C ops).front + (Queue.run T C ops).count) % C := by
  obtain ⟨hl, hf, hc, hr⟩ := Queue.inv_run T h1 ops
  refine ⟨hc, hf, ?_, hr⟩
  rw [hr]
  exact Nat.mod_lt _ (by omega)

/-- Witness for C6 at capacity 3, with enough operations to wrap the
indices around. -/
theorem fenz_c6_reachable_bounds_witness :
    1 ≤ 3 ∧
    ((Queue.run Nat 3 [.enq 1, .enq 2, .enq 3, .deq, .fenq 4, .fenq 5,
        .deq, .enq 6, .deq, .deq]).size
        ≤ Queue.capacity 3 (Queue.run Nat 3 [.enq 1, .enq 2, .enq 3, .deq,
            .fenq 4, .fenq 5, .deq, .enq 6, .deq, .deq]) ∧
      (Queue.run Nat 3 [.enq 1, .enq 2, .enq 3, .deq, .fenq 4, .fenq 5,
        .deq, .enq 6, .deq, .deq]).front < 3 ∧
      (Queue.run Nat 3 [.enq 1, .enq 2, .enq 3, .deq, .fenq 4, .fenq 5,
        .deq, .enq 6, .deq, .deq]).rear < 3 ∧
      (Queue.run Nat 3 [.enq 1, .enq 2, .enq 3, .deq, .fenq 4, .fenq 5,
        .deq, .enq 6, .deq, .deq]).rear
        = ((Queue.run Nat 3 [.enq 1, .enq 2, .enq 3, .deq, .fenq 4, .fenq 5,
            .deq, .enq 6, .deq, .deq]).front
            + (Queue.run Nat 3 [.enq 1, .enq 2, .enq 3, .deq, .fenq 4,
                .fenq 5, .deq, .enq 6, .deq, .deq]).count) % 3) :=
  ⟨by decide,
    fenz_c6_reachable_bounds Nat 3 (by decide)
      [.enq 1, .enq 2, .enq 3, .deq, .fenq 4, .fenq 5, .deq, .enq 6,
        .deq, .deq]⟩

/-- C2. Eviction law: filling a freshly constructed capacity-`C` queue with
`v1..vC`, then `forceEnqueue(vNew)`, then dequeuing `C` times yields
`v2..vC, vNew` in order, and `forceEnqueue` leaves `size()` unchanged;
moreover on every full queue satisfying the representation invariant,
`forceEnqueue` drops the oldest value, appends the new one, and leaves
`size()` unchanged. -/
theorem fenz_c2_eviction_law (T : Type) (C : Nat) (h1 : 1 ≤ C) (vs : List T)
    (hlen : vs.length = C) (vNew : T) :
    (Queue.dequeueN C
        (Queue.forceEnqueue C (Queue.enqueueList C (Queue.mk0 T C) vs) vNew)
        C).2
      = (vs.tail ++ [vNew]).map some ∧
    (Queue.forceEnqueue C (Queue.enqueueList C (Queue.mk0 T C) vs) vNew).size
      = (Queue.enqueueList C (Queue.mk0 T C) vs).size ∧
    ∀ q : Queue T, Queue.Inv C q → q.count = C →
      Queue.window C (Queue.forceEnqueue C q vNew)
          = (Queue.window C q).tail ++ [some vNew] ∧
      (Queue.forceEnqueue C q vNew).size = q.size := by
  have gen : ∀ q : Queue T, Queue.Inv C q → q.count = C →
      Queue.window C (Queue.forceEnqueue C q vNew)
          = (Queue.window C q).tail ++ [some vNew] ∧
      (Queue.forceEnqueue C q vNew).size = q.size := by
    intro q hq hqc
    have h0 : q.count ≠ 0 := by omega
    have hqd : Queue.Inv C (Queue.dequeue C q).1 := Queue.inv_dequeue h1 hq
    have hcd : (Queue.dequeue C q).1.count = q.count - 1 :=
      Queue.count_dequeue_nonEmpty h0
    have hne : (Queue.dequeue C q).1.count ≠ C := by rw [hcd]; omega
    rw [Queue.forceEnqueue_full vNew h1 hqc]
    constructor
    · rw [Queue.window_enqueue vNew h1 hqd hne, Queue.window_dequeue h1 hq h0,
        List.tail_cons]
    · show (Queue.enqueue C (Queue.dequeue C q).1 vNew).1.count = q.count
      rw [Queue.count_enqueue_notFull vNew hne, hcd]
      omega
  obtain ⟨hI, hcnt, hw⟩ := Queue.enqueueList_window h1 vs (Queue.mk0 T C)
    (Queue.inv_mk0 T h1) (by dsimp [Queue.mk0]; omega)
  have hqc : (Queue.enqueueList C (Queue.mk0 T C) vs).count = C := by
    rw [hcnt]; dsimp [Queue.mk0]; omega
  obtain ⟨gw, gs⟩ := gen _ hI hqc
  refine ⟨?_, gs, gen⟩
  have hIf : Queue.Inv C
      (Queue.forceEnqueue C (Queue.enqueueList C (Queue.mk0 T C) vs) vNew) :=
    Queue.inv_forceEnqueue vNew h1 hI
  have hcf : (Queue.forceEnqueue C
      (Queue.enqueueList C (Queue.mk0 T C) vs) vNew).count = C := by
    have hgs := gs
    dsimp [Queue.size] at hgs
    rw [hgs, hqc]
  rw [Queue.dequeueN_window h1 C _ hIf hcf, gw, hw, Queue.window_mk0,
    List.nil_append, List.map_append, List.map_tail]
  rfl

/-- Witness for C2 at `Capacity = 3`, `vs = [1, 2, 3]`, `vNew = 9`:
dequeuing afterwards yields `2, 3, 9` and the size stays 3. -/
theorem fenz_c2_eviction_law_witness :
    1 ≤ 3 ∧ ([1, 2, 3] : List Nat).length = 3 ∧
    (Queue.dequeueN 3
        (Queue.forceEnqueue 3 (Queue.enqueueList 3 (Queue.mk0 Nat 3) [1, 2, 3]) 9)
        3).2
      = [some 2, some 3, some 9] ∧
    (Queue.forceEnqueue 3 (Queue.enqueueList 3 (Queue.mk0 Nat 3) [1, 2, 3]) 9).size
      = (Queue.enqueueList 3 (Queue.mk0 Nat 3) [1, 2, 3]).size :=
  ⟨by decide, by decide,
    (fenz_c2_eviction_law Nat 3 (by decide) [1, 2, 3] (by decide) 9).1,
    (fenz_c2_eviction_law Nat 3 (by decide) [1, 2, 3] (by decide) 9).2.1⟩

/-- C5 counterexample, refuting the claimed slot-occupancy `iff` and the
destructive read: at capacity 1, after `enqueue(5)` then `dequeue()`, the
queue is empty (`count = 0`, so *no* index lies in the live window), yet
the backing slot 0 — which is also the slot at `rear` — still holds
`some 5`: `dequeue` copied the slot without clearing it. -/
theorem fenz_c5_counterexample :
    (Queue.run Nat 1 [.enq 5, .deq]).count = 0 ∧
    (Queue.run Nat 1 [.enq 5, .deq]).front = 0 ∧
    (Queue.run Nat 1 [.enq 5, .deq]).rear = 0 ∧
    (Queue.run Nat 1 [.enq 5, .deq]).data.getD 0 none = some 5 ∧
    (Queue.dequeue 1 (Queue.run Nat 1 [.enq 5])).1.data
      = (Queue.run Nat 1 [.enq 5]).data := by
  refine ⟨rfl, rfl, rfl, rfl, rfl⟩

/-- C5 amended: in every reachable state, every slot whose index is one of
the `count` positions starting at `front` (mod `Capacity`) is present —
but not conversely: slots outside the live window may retain stale values,
because `dequeue` copies the front slot without clearing it (its
presence is unchanged; the backing array is not mutated at all). -/
theorem fenz_c5_amended_window_present (T : Type) (C : Nat) (h1 : 1 ≤ C)
    (ops : List (Queue.Op T)) :
    (∀ k, k < (Queue.run T C ops).count →
        ((Queue.run T C ops).data.getD
          (((Queue.run T C ops).front + k) % C) none).isSome = true) ∧
    (Queue.dequeue C (Queue.run T C ops)).1.data = (Queue.run T C ops).data := by
  refine ⟨?_, Queue.dequeue_data C _⟩
  intro k hk
  exact Queue.presInv_run T h1 ops _
    (List.mem_map.mpr ⟨k, List.mem_range.mpr hk, rfl⟩)

/-- Witness for C5 (amended) at capacity 2 after three operations: the slot
at window position 0 is present, and `dequeue` leaves the backing array
untouched. -/
theorem fenz_c5_amended_window_present_witness :
    1 ≤ 2 ∧
    0 < (Queue.run Nat 2 [.enq 5, .enq 6, .deq]).count ∧
    ((Queue.run Nat 2 [.enq 5, .enq 6, .deq]).data.getD
        (((Queue.run Nat 2 [.enq 5, .enq 6, .deq]).front + 0) % 2)
        none).isSome = true ∧
    (Queue.dequeue 2 (Queue.run Nat 2 [.enq 5, .enq 6, .deq])).1.data
      = (Queue.run Nat 2 [.enq 5, .enq 6, .deq]).data :=
  ⟨by decide, by decide,
    (fenz_c5_amended_window_present Nat 2 (by decide)
        [.enq 5, .enq 6, .deq]).1 0 (by decide),
    (fenz_c5_amended_window_present Nat 2 (by decide)
        [.enq 5, .enq 6, .deq]).2⟩

/-- C7 counterexample: the round trip fails as universally stated.  On the
non-empty capacity-2 queue holding `1`, `enqueue(2)` followed by
`dequeue()` returns `some 1`, not `some 2` (FIFO returns the oldest value);
and on the full capacity-1 queue holding `1`, `enqueue(2)` fails and the
subsequent `dequeue()` drops the size from 1 to 0, so the size does not
return to its pre-enqueue value. -/
theorem fenz_c7_counterexample :
    (Queue.dequeue 2
        (Queue.enqueue 2 (Queue.run Nat 2 [.enq 1]) 2).1).2 = some 1 ∧
    (Queue.dequeue 2
        (Queue.enqueue 2 (Queue.run Nat 2 [.enq 1]) 2).1).2 ≠ some 2 ∧
    (Queue.run Nat 1 [.enq 1]).size = 1 ∧
    (Queue.dequeue 1
        (Queue.enqueue 1 (Queue.run Nat 1 [.enq 1]) 2).1).1.size = 0 := by
  refine ⟨rfl, by decide, rfl, rfl⟩

/-- C7 amended: for every state satisfying the representation invariant
with `size() = 0` (in particular the freshly constructed queue),
`enqueue(x)` succeeds, an immediately following `dequeue()` returns
`present(x)`, and `size()` afterwards equals its pre-enqueue value. -/
theorem fenz_c7_amended_roundtrip (T : Type) (C : Nat) (q : Queue T) (x : T)
    (h1 : 1 ≤ C) (hq : Queue.Inv C q) (h0 : q.count = 0) :
    (Queue.enqueue C q x).2 = true ∧
    (Queue.dequeue C (Queue.enqueue C q x).1).2 = some x ∧
    (Queue.dequeue C (Queue.enqueue C q x).1).1.size = q.size := by
  obtain ⟨hl, hf, hc, hr⟩ := hq
  have hne : q.count ≠ C := by omega
  have hrf : q.rear = q.front := by
    rw [hr, h0, Nat.add_zero, Nat.mod_eq_of_lt hf]
  rw [Queue.enqueue_notFull x hne]
  have hd : ({ q with data := q.data.set q.rear (some x), rear := (q.rear + 1) % C, count := q.count + 1 } : Queue T).count ≠ 0 := by
    show q.count + 1 ≠ 0
    omega
  refine ⟨rfl, ?_, ?_⟩
  · rw [Queue.dequeue_nonEmpty hd]
    show (q.data.set q.rear (some x)).getD q.front none = some x
    rw [hrf]
    exact getD_set_self _ _ _ _ (by rw [hl]; exact hf)
  · rw [Queue.dequeue_nonEmpty hd]
    show q.count + 1 - 1 = q.count
    omega

/-- Witness for C7 (amended) on the fresh capacity-2 queue with `x = 5`. -/
theorem fenz_c7_amended_roundtrip_witness :
    1 ≤ 2 ∧ Queue.Inv 2 (Queue.mk0 Nat 2) ∧ (Queue.mk0 Nat 2).count = 0 ∧
    ((Queue.enqueue 2 (Queue.mk0 Nat 2) 5).2 = true ∧
      (Queue.dequeue 2 (Queue.enqueue 2 (Queue.mk0 Nat 2) 5).1).2 = some 5 ∧
      (Queue.dequeue 2 (Queue.enqueue 2 (Queue.mk0 Nat 2) 5).1).1.size
        = (Queue.mk0 Nat 2).size) :=
  ⟨by decide, Queue.inv_mk0 Nat (by decide), rfl,
    fenz_c7_amended_roundtrip Nat 2 (Queue.mk0 Nat 2) 5 (by decide)
      (Queue.inv_mk0 Nat (by decide)) rfl⟩

/-- C8. `valueOrAssign` semantics: on a present slot it returns the held
value and leaves the slot unchanged; on an absent slot it stores the
fallback (so a subsequent `hasValue()` reports true) and returns that
stored fallback. -/
theorem fenz_c8_valueOrAssign_semantics (T : Type) (s : Slot T) (fb : T) :
    (∀ v, s.hasValue_ = true → s.store = some v →
        Slot.valueOrAssign s fb = (s, some v)) ∧
    (s.hasValue_ = false →
        Slot.valueOrAssign s fb = (⟨true, some fb⟩, some fb) ∧
        (Slot.valueOrAssign s fb).1.hasValue = true) := by
  constructor
  · intro v hh hv
    simp [Slot.valueOrAssign, hh, hv]
  · intro hh
    simp [Slot.valueOrAssign, Slot.assign, Slot.mkSome, Slot.hasValue, hh]

/-- Witness for C8: a present slot holding 7 is returned unchanged; an
absent slot gets 42 stored and returned. -/
theorem fenz_c8_valueOrAssign_semantics_witness :
    Slot.valueOrAssign (⟨true, some 7⟩ : Slot Nat) 42 = (⟨true, some 7⟩, some 7) ∧
    (Slot.valueOrAssign (⟨false, none⟩ : Slot Nat) 42 = (⟨true, some 42⟩, some 42) ∧
      (Slot.valueOrAssign (⟨false, none⟩ : Slot Nat) 42).1.hasValue = true) :=
  ⟨(fenz_c8_valueOrAssign_semantics Nat ⟨true, some 7⟩ 42).1 7 rfl rfl,
    (fenz_c8_valueOrAssign_semantics Nat ⟨false, none⟩ 42).2 rfl⟩

/-- C9. The assignment operator is *not* correct under self-assignment,
exactly as the source reads: on a present slot assigned to itself,
`value_.~T()` runs first and the subsequent `value_ = other.value_` copies
from the already-destructed storage.  Evaluated at the failing input — a
present slot holding `0` assigned to itself — the held `T` is destructed
once and the slot ends with `hasValue_ = true` over storage holding no
live value, violating the live-iff-present invariant, so the held value is
not preserved. -/
theorem fenz_c9_self_assignment_bug :
    Slot.assignSelf (⟨true, some 0⟩ : Slot Nat) = (⟨true, none⟩, 1) ∧
    (Slot.assignSelf (⟨true, some 0⟩ : Slot Nat)).1.hasValue_ = true ∧
    ¬ Slot.WF (Slot.assignSelf (⟨true, some 0⟩ : Slot Nat)).1 := by
  refine ⟨rfl, rfl, ?_⟩
  intro h
  rw [Slot.WF] at h
  exact absurd h (by decide)

end Fenz
